import Mathlib

/-!
Shallow embedding of the `celvalidator` Go package: the rule data model,
the rule resolver (`GetRulesFor`), the metadata factory
(`NewValidationMetadata`), the record flattening (`flattenStruct`) and the
evaluation engine loop (`Validate`).  The CEL expression engine itself is an
external collaborator and is modelled as an abstract interface whose
compile / program-build / execute steps return `Except` values.
-/

/-- A CEL rule with optional dependent rules (Go struct `RuleEntry`:
`Rule`, `Enabled`, `FailureMessage`, `Then`). -/
inductive RuleEntry : Type where
  | mk : String → Bool → String → List RuleEntry → RuleEntry

/-- The rule expression text (Go field `Rule`). -/
def RuleEntry.rule : RuleEntry → String
  | .mk r _ _ _ => r

/-- Whether the entry is enabled (Go field `Enabled`). -/
def RuleEntry.enabled : RuleEntry → Bool
  | .mk _ e _ _ => e

/-- The configured failure message (Go field `FailureMessage`). -/
def RuleEntry.failureMessage : RuleEntry → String
  | .mk _ _ m _ => m

/-- The dependent sub-rules (Go field `Then`). -/
def RuleEntry.thens : RuleEntry → List RuleEntry
  | .mk _ _ _ t => t

/-- `RuleSetMap` maps StructName -> Operation -> Rules.  Go maps are
modelled as association lists with first-match lookup. -/
def RuleSetMap : Type := List (String × List (String × List RuleEntry))

mutual

/-- Go values as seen by the reflection-based introspector: scalars,
pointers and structs with named, possibly unexported, fields. -/
inductive GoValue : Type where
  | vString : String → GoValue
  | vInt : Int → GoValue
  | vBool : Bool → GoValue
  | vPtr : GoValue → GoValue
  | vStruct : String → List GoField → GoValue

/-- A struct field: name, whether it can be introspected
(`CanInterface`, i.e. exported), and its value. -/
inductive GoField : Type where
  | mk : String → Bool → GoValue → GoField

end

/-- The field name. -/
def GoField.name : GoField → String
  | .mk n _ _ => n

/-- Whether the field can be introspected. -/
def GoField.exported : GoField → Bool
  | .mk _ e _ => e

/-- The field value. -/
def GoField.value : GoField → GoValue
  | .mk _ _ v => v

/-- The reflected type name of a value (`reflect.Type.Name`): a struct's
declared name; pointer and scalar types have no declared name here. -/
def GoValue.typeName : GoValue → String
  | .vStruct n _ => n
  | _ => ""

/-- `getStructName` extracts the type name, dereferencing one pointer
level (validator.go lines 319-325). -/
def getStructName : GoValue → String
  | .vPtr v => v.typeName
  | v => v.typeName

mutual

/-- `flattenStruct` flattens struct fields including nested structs
(validator.go lines 266-297).  A top-level pointer is dereferenced once;
the fields of the resulting struct are then walked in order. -/
def flattenStruct : GoValue → List (String × GoValue)
  | .vPtr (.vStruct _ fields) => flattenFields fields
  | .vStruct _ fields => flattenFields fields
  | _ => []

/-- One iteration of the field loop of `flattenStruct`: skip fields that
cannot be introspected; recursively flatten struct-kinded fields with
dotted path naming; store every other field (pointers included) as a
single value under the field name. -/
def flattenFields : List GoField → List (String × GoValue)
  | [] => []
  | .mk name exported value :: rest =>
      (if exported then
        match value with
        | .vStruct n fs =>
            (flattenStruct (GoValue.vStruct n fs)).map
              (fun kv => (name ++ "." ++ kv.1, kv.2))
        | other => [(name, other)]
      else []) ++ flattenFields rest

end

mutual

/-- `filterEnabledRules` returns a copy of a `RuleEntry` keeping only
recursively-enabled nested rules (validator.go lines 207-221). -/
def filterEnabledRules : RuleEntry → RuleEntry
  | .mk r e m thens => .mk r e m (filterEnabledThen thens)

/-- The child loop of `filterEnabledRules`: a disabled child and its whole
subtree are dropped, an enabled child is kept with filtered children. -/
def filterEnabledThen : List RuleEntry → List RuleEntry
  | [] => []
  | c :: rest =>
      (if c.enabled then [filterEnabledRules c] else []) ++ filterEnabledThen rest

end

/-- The merge loop of `GetRulesFor` over one bucket: an entry is appended
(filtered) iff its expression text was not already seen and it is enabled;
appended entries mark their text as seen (validator.go lines 182-188 and
193-199). -/
def mergeBucket : List RuleEntry → List RuleEntry → List String →
    List RuleEntry × List String
  | [], merged, seen => (merged, seen)
  | r :: rest, merged, seen =>
      if !(seen.contains r.rule) && r.enabled then
        mergeBucket rest (merged ++ [filterEnabledRules r]) (r.rule :: seen)
      else
        mergeBucket rest merged seen

/-- `GetRulesFor` retrieves rules for a struct (Default bucket) plus the
requested operation from the rule set (validator.go lines 173-204). -/
def GetRulesFor (obj : GoValue) (operation : String) (rules : RuleSetMap) :
    List RuleEntry :=
  let name := getStructName obj
  match List.lookup name rules with
  | none => []
  | some structRules =>
      let stateAfterDefault :=
        match List.lookup "Default" structRules with
        | some defaultRules => mergeBucket defaultRules [] []
        | none => ([], [])
      match List.lookup operation structRules with
      | some opRules =>
          (mergeBucket opRules stateAfterDefault.1 stateAfterDefault.2).1
      | none => stateAfterDefault.1

/-- Deduplication by exact expression text, first occurrence winning;
returns the kept entries and the final seen set.  This is the
specification-side formulation used to state the resolver contract. -/
def dedupByRule : List RuleEntry → List String → List RuleEntry × List String
  | [], seen => ([], seen)
  | e :: rest, seen =>
      if seen.contains e.rule then dedupByRule rest seen
      else
        let tail := dedupByRule rest (e.rule :: seen)
        (e :: tail.1, tail.2)

/-- Specification-side statement of the resolver contract: the enabled
entries of the Default bucket in original order, followed by the enabled
entries of the operation bucket in original order, deduplicated by exact
expression text with the first occurrence winning, each retained entry
recursively filtered; an absent type yields the empty list. -/
def getRulesForSpec (obj : GoValue) (operation : String) (rules : RuleSetMap) :
    List RuleEntry :=
  match List.lookup (getStructName obj) rules with
  | none => []
  | some structRules =>
      let ds := (List.lookup "Default" structRules).getD []
      let os := (List.lookup operation structRules).getD []
      ((dedupByRule ((ds ++ os).filter (fun e => e.enabled)) []).1).map
        filterEnabledRules

/-- `ValidationMetadata` tracks where a rule came from and how it was
activated (validator.go lines 23-29). -/
structure ValidationMetadata : Type where
  structName : String
  operation : String
  chainPath : String
  ruleIndex : Int
  parentRule : String
deriving DecidableEq

/-- `NewValidationMetadata` creates a context from struct type and rule
set (validator.go lines 224-249).  When the requested operation is empty
and the type has exactly one bucket, Go's single-key map iteration yields
that bucket's name. -/
def NewValidationMetadata (obj : GoValue) (operation : String)
    (rules : RuleSetMap) : ValidationMetadata :=
  let structName := getStructName obj
  let op :=
    match List.lookup structName rules with
    | some structRules =>
        if operation = "" then
          if structRules.length = 1 then
            (match structRules with
             | (k, _) :: _ => k
             | [] => "Default")
          else "Default"
        else operation
    | none => "Default"
  { structName := structName, operation := op, chainPath := "",
    ruleIndex := -1, parentRule := "" }

/-- The value produced by a successful CEL program execution, as inspected
by `out.Value() == true`: only the boolean `true` counts as passing. -/
inductive CelValue : Type where
  | bool : Bool → CelValue
  | int : Int → CelValue
  | str : String → CelValue
  | dyn : CelValue
deriving DecidableEq

/-- The external CEL engine capability, already bound to one record's
environment and variables: compile an expression, build a program from a
compiled form, and execute a program.  Each step may fail. -/
structure CelEngine (α β : Type) : Type where
  compile : String → Except String α
  program : α → Except String β
  evalProgram : β → Except String CelValue

/-- `ValidationResult` represents the outcome of a single rule evaluation
(validator.go lines 32-38).  Go's nil-able `error` is `Option String`. -/
structure ValidationResult : Type where
  rule : String
  passed : Bool
  error : Option String
  message : String
  metadata : ValidationMetadata
deriving DecidableEq

/-- `Validator` encapsulates options for validation; `partEval` models the
Go field enabling partial-evaluation mode. -/
structure Validator : Type where
  partEval : Bool
deriving DecidableEq

/-- The per-call mutable state of `Validate`: the accumulated result list
and the seen-expression set (shared across all recursion levels). -/
structure EvalState : Type where
  results : List ValidationResult
  seen : List String
deriving DecidableEq

/-- `extendChainPath` appends a breadcrumb segment (validator.go lines
165-170). -/
def extendChainPath (current next : String) : String :=
  if current = "" then next else current ++ " > " ++ next

/-- The child context built when recursing into a passing entry's `Then`
list (validator.go lines 146-152). -/
def childMetadata (md : ValidationMetadata) (rule : String) :
    ValidationMetadata :=
  { structName := md.structName, operation := md.operation,
    chainPath := extendChainPath md.chainPath "then",
    ruleIndex := -1, parentRule := rule }

/-- The recursive `eval` closure inside `Validate` (validator.go lines
77-159): walk the entries left to right carrying the sibling index, skip
disabled or already-seen entries, record a result for every compile
failure, build failure or execution, recurse into a passing entry's
children, and halt with an error on compile/build failure only when
partial evaluation is off. -/
def evalRules (v : Validator) (eng : CelEngine α β)
    (entries : List RuleEntry) (md : ValidationMetadata) (i : Nat)
    (st : EvalState) : EvalState × Option String :=
  match entries with
  | [] => (st, none)
  | RuleEntry.mk r en fmsg ths :: rest =>
      if !en || st.seen.contains r then
        evalRules v eng rest md (i + 1) st
      else
        let st1 : EvalState := { st with seen := r :: st.seen }
        match eng.compile r with
        | .error ce =>
            let st2 : EvalState :=
              { st1 with results := st1.results ++ [{
                  rule := r, passed := false, error := some ce, message := "",
                  metadata := { structName := md.structName,
                                operation := md.operation,
                                chainPath := md.chainPath ++ " > compileError",
                                ruleIndex := (i : Int),
                                parentRule := md.parentRule } }] }
            if !v.partEval then (st2, some ce)
            else evalRules v eng rest md (i + 1) st2
        | .ok ast =>
            match eng.program ast with
            | .error pe =>
                let st2 : EvalState :=
                  { st1 with results := st1.results ++ [{
                      rule := r, passed := false, error := some pe,
                      message := "",
                      metadata := { structName := md.structName,
                                    operation := md.operation,
                                    chainPath := md.chainPath ++ " > programError",
                                    ruleIndex := (i : Int),
                                    parentRule := md.parentRule } }] }
                if !v.partEval then (st2, some pe)
                else evalRules v eng rest md (i + 1) st2
            | .ok prg =>
                let out := eng.evalProgram prg
                let passed : Bool :=
                  match out with
                  | .ok (.bool true) => true
                  | _ => false
                let res : ValidationResult :=
                  { rule := r, passed := passed,
                    error := match out with
                             | .error e2 => some e2
                             | .ok _ => none,
                    message := if !passed then fmsg else "",
                    metadata := { structName := md.structName,
                                  operation := md.operation,
                                  chainPath := md.chainPath,
                                  ruleIndex := (i : Int),
                                  parentRule := md.parentRule } }
                let st2 : EvalState := { st1 with results := st1.results ++ [res] }
                if passed && !ths.isEmpty then
                  match evalRules v eng ths (childMetadata md r) 0 st2 with
                  | (st3, some cerr) =>
                      if !v.partEval then (st3, some cerr)
                      else evalRules v eng rest md (i + 1) st3
                  | (st3, none) => evalRules v eng rest md (i + 1) st3
                else evalRules v eng rest md (i + 1) st2
termination_by sizeOf entries
decreasing_by all_goals (simp_wf; try omega)

/-- `Validate` evaluates rules and returns results with structured context
(validator.go lines 64-163).  The environment construction outcome for the
record is passed as an `Except`: on failure the call returns Go's nil
result slice (`none`) and the error; on success the rule walk starts from
an empty state at sibling index 0. -/
def Validator.Validate (v : Validator) (envRes : Except String (CelEngine α β))
    (rules : List RuleEntry) (metadata : ValidationMetadata) :
    Option (List ValidationResult) × Option String :=
  match envRes with
  | .error e => (none, some e)
  | .ok eng =>
      let out := evalRules v eng rules metadata 0 { results := [], seen := [] }
      (some out.1.results, out.2)

/-- The expression texts of entries reachable by the evaluation walk:
enabled entries and, beneath an enabled entry, its subtree's reachable
texts; a disabled entry contributes nothing, its subtree included. -/
def enabledRuleTexts (entries : List RuleEntry) : List String :=
  match entries with
  | [] => []
  | RuleEntry.mk r en _ ths :: rest =>
      (if en then r :: enabledRuleTexts ths else []) ++ enabledRuleTexts rest
termination_by sizeOf entries
decreasing_by all_goals (simp_wf; try omega)

/-- The per-call state invariant of the walk: every recorded result's
expression text is in the seen set, and the recorded texts are pairwise
distinct. -/
def StOk (st : EvalState) : Prop :=
  (∀ res ∈ st.results, res.rule ∈ st.seen) ∧
  (st.results.map (fun res => res.rule)).Nodup


lemma dedupByRule_append (xs ys : List RuleEntry) (s : List String) :
    dedupByRule (xs ++ ys) s =
      ((dedupByRule xs s).1 ++ (dedupByRule ys (dedupByRule xs s).2).1,
       (dedupByRule ys (dedupByRule xs s).2).2) := by
  induction xs generalizing s with
  | nil => simp [dedupByRule]
  | cons e rest ih =>
      simp only [List.cons_append, dedupByRule]
      by_cases h : e.rule ∈ s
      · simp [h, ih]
      · simp [h, ih]

lemma mergeBucket_eq (entries : List RuleEntry) (m : List RuleEntry)
    (s : List String) :
    mergeBucket entries m s =
      (m ++ ((dedupByRule (entries.filter (fun e => e.enabled)) s).1).map
          filterEnabledRules,
       (dedupByRule (entries.filter (fun e => e.enabled)) s).2) := by
  induction entries generalizing m s with
  | nil => simp [mergeBucket, dedupByRule]
  | cons r rest ih =>
      cases hr : r.enabled
      · simp [mergeBucket, hr, ih]
      · by_cases hc : r.rule ∈ s
        · simp [mergeBucket, hr, hc, dedupByRule, ih]
        · simp [mergeBucket, hr, hc, dedupByRule, ih]

/-- C5: for every record, operation and repository, `GetRulesFor` returns
the enabled entries of the record type's Default bucket in original order,
followed by the enabled not-yet-seen entries of the requested operation
bucket in original order, deduplicated by exact expression text with the
first occurrence winning, with every retained entry recursively filtered so
that a disabled descendant and its subtree are dropped at any depth, and
the result is empty when the type is absent: the implementation coincides
with the specification-side formulation `getRulesForSpec`. -/
theorem c5_resolver_matches_spec (obj : GoValue) (operation : String)
    (rules : RuleSetMap) :
    GetRulesFor obj operation rules = getRulesForSpec obj operation rules := by
  unfold GetRulesFor getRulesForSpec
  cases h1 : List.lookup (getStructName obj) rules with
  | none => simp [h1]
  | some structRules =>
      simp only [h1]
      cases h2 : List.lookup "Default" structRules with
      | none =>
          cases h3 : List.lookup operation structRules with
          | none => simp [h2, h3, mergeBucket_eq, dedupByRule]
          | some ops => simp [h2, h3, mergeBucket_eq, dedupByRule]
      | some ds =>
          cases h3 : List.lookup operation structRules with
          | none => simp [h2, h3, mergeBucket_eq, dedupByRule]
          | some ops =>
              simp [h2, h3, mergeBucket_eq, dedupByRule_append,
                List.filter_append]

/-- C8: `NewValidationMetadata` always produces chainPath `""`, ruleIndex
`-1` and parentRule `""`; the operation is the given one when non-empty
and the type is present; an empty operation resolves to the single
bucket's name when there is exactly one bucket and to `"Default"`
otherwise; an absent type forces `"Default"` regardless of the input. -/
theorem c8_metadata_factory (obj : GoValue) (operation : String)
    (rules : RuleSetMap) :
    (NewValidationMetadata obj operation rules).chainPath = "" ∧
    (NewValidationMetadata obj operation rules).ruleIndex = -1 ∧
    (NewValidationMetadata obj operation rules).parentRule = "" ∧
    (NewValidationMetadata obj operation rules).structName = getStructName obj ∧
    (List.lookup (getStructName obj) rules = none →
      (NewValidationMetadata obj operation rules).operation = "Default") ∧
    (∀ bs, List.lookup (getStructName obj) rules = some bs → operation ≠ "" →
      (NewValidationMetadata obj operation rules).operation = operation) ∧
    (∀ k entries, List.lookup (getStructName obj) rules = some [(k, entries)] →
      operation = "" →
      (NewValidationMetadata obj operation rules).operation = k) ∧
    (∀ bs, List.lookup (getStructName obj) rules = some bs → operation = "" →
      bs.length ≠ 1 →
      (NewValidationMetadata obj operation rules).operation = "Default") := by
  refine ⟨rfl, rfl, rfl, rfl, ?_, ?_, ?_, ?_⟩
  · intro h; simp [NewValidationMetadata, h]
  · intro bs h hop; simp [NewValidationMetadata, h, hop]
  · intro k entries h hop; simp [NewValidationMetadata, h, hop]
  · intro bs h hop hlen; simp [NewValidationMetadata, h, hop, hlen]

/-- Closed instance of `c8_metadata_factory` on a concrete record and
repository, discharging each hypothesis of its conditional conjuncts. -/
theorem c8_metadata_factory_witness :
    (NewValidationMetadata (GoValue.vStruct "User" []) ""
      [("User", [("Create", [])])]).operation = "Create" := by
  exact (c8_metadata_factory (GoValue.vStruct "User" []) ""
      [("User", [("Create", [])])]).2.2.2.2.2.2.1 "Create" [] rfl rfl

/-- C10: if building the evaluation environment fails at the start of a
`Validate` call, the call returns the absent result sequence (`none`,
Go's nil slice) together with that error, without evaluating any rule,
for every validator configuration (partial evaluation on or off). -/
theorem c10_env_error {α β : Type} (v : Validator) (e : String)
    (rules : List RuleEntry) (md : ValidationMetadata) :
    Validator.Validate (α := α) (β := β) v (Except.error e) rules md =
      (none, some e) := rfl

/-- C9 counterexample: the claim says a pointer-valued sub-record field is
dereferenced and flattened like a plain nested struct field; on the record
`Outer { P *Inner }` with `Inner { X int }` the code instead stores the
pointer as a single opaque value under key `"P"` and produces no `"P.X"`
key, whereas the plain nested variant produces exactly `"P.X"`. -/
theorem c9_counterexample :
    flattenStruct (GoValue.vStruct "Outer"
        [GoField.mk "P" true (GoValue.vPtr (GoValue.vStruct "Inner"
          [GoField.mk "X" true (GoValue.vInt 1)]))]) =
      [("P", GoValue.vPtr (GoValue.vStruct "Inner"
          [GoField.mk "X" true (GoValue.vInt 1)]))] ∧
    List.lookup "P.X" (flattenStruct (GoValue.vStruct "Outer"
        [GoField.mk "P" true (GoValue.vPtr (GoValue.vStruct "Inner"
          [GoField.mk "X" true (GoValue.vInt 1)]))])) = none ∧
    flattenStruct (GoValue.vStruct "Outer"
        [GoField.mk "P" true (GoValue.vStruct "Inner"
          [GoField.mk "X" true (GoValue.vInt 1)])]) =
      [("P.X", GoValue.vInt 1)] := by
  refine ⟨?_, ?_, ?_⟩ <;> simp [flattenStruct, flattenFields, List.lookup]

/-- C9 amended: the flattening dereferences a pointer at the top level
only; nested struct-kinded fields are recursively flattened under
`parentField ++ "." ++ childField` keys; fields that cannot be
introspected are skipped; but a pointer-valued field is not dereferenced —
it is stored as a single opaque value under the field name. -/
theorem c9_amended_flattening (n nm : String) (fs : List GoField)
    (rest : List GoField) (w fval : GoValue) :
    flattenStruct (GoValue.vPtr (GoValue.vStruct n fs)) =
      flattenStruct (GoValue.vStruct n fs) ∧
    flattenFields (GoField.mk nm true (GoValue.vStruct n fs) :: rest) =
      (flattenStruct (GoValue.vStruct n fs)).map
          (fun kv => (nm ++ "." ++ kv.1, kv.2)) ++ flattenFields rest ∧
    flattenFields (GoField.mk nm false fval :: rest) = flattenFields rest ∧
    flattenFields (GoField.mk nm true (GoValue.vPtr w) :: rest) =
      (nm, GoValue.vPtr w) :: flattenFields rest := by
  refine ⟨?_, ?_, ?_, ?_⟩ <;> simp [flattenStruct, flattenFields]

/-- C1 counterexample: the claim says a runtime execution error leaves the
result's `message` empty; on a concrete engine whose execution raises
`"runtime failure"` the appended result instead carries the entry's
configured failure message, which is not empty. -/
theorem c1_counterexample :
    (Validator.Validate ⟨false⟩ (Except.ok
        { compile := fun _ => Except.ok 0,
          program := fun _ => Except.ok 0,
          evalProgram := fun _ => Except.error "runtime failure" :
          CelEngine Nat Nat })
        [RuleEntry.mk "Amount > 0" true "Amount must be positive" []]
        ⟨"PaymentRequest", "Create", "", -1, ""⟩).1 =
      some [{ rule := "Amount > 0", passed := false,
              error := some "runtime failure",
              message := "Amount must be positive",
              metadata := ⟨"PaymentRequest", "Create", "", 0, ""⟩ }] ∧
    "Amount must be positive" ≠ "" := by
  constructor
  · simp [Validator.Validate, evalRules]
  · decide

/-- C1 amended: for every rule whose expression compiles and whose program
builds but whose execution raises a runtime error, the appended result has
`passed = false` and its error field carries the execution error, but its
message field carries the entry's configured failure message — the same as
for a pure logical failure — rather than being left empty; the call's
overall error stays absent. -/
theorem c1_amended_exec_error_message {α β : Type} (v : Validator)
    (eng : CelEngine α β) (r fm : String) (ths : List RuleEntry)
    (md : ValidationMetadata) (a : α) (p : β) (ex : String)
    (hc : eng.compile r = Except.ok a) (hp : eng.program a = Except.ok p)
    (he : eng.evalProgram p = Except.error ex) :
    Validator.Validate v (Except.ok eng) [RuleEntry.mk r true fm ths] md =
      (some [{ rule := r, passed := false, error := some ex, message := fm,
               metadata := { structName := md.structName,
                             operation := md.operation,
                             chainPath := md.chainPath, ruleIndex := 0,
                             parentRule := md.parentRule } }], none) := by
  simp [Validator.Validate, evalRules, hc, hp, he]

/-- Closed instance of `c1_amended_exec_error_message` at a concrete
engine whose execution fails, discharging each hypothesis. -/
theorem c1_amended_exec_error_message_witness :
    Validator.Validate ⟨true⟩ (Except.ok
        { compile := fun _ => Except.ok 7,
          program := fun _ => Except.ok 7,
          evalProgram := fun _ => Except.error "boom" : CelEngine Nat Nat })
        [RuleEntry.mk "Age > 18" true "too young" []]
        ⟨"User", "Create", "", -1, ""⟩ =
      (some [{ rule := "Age > 18", passed := false, error := some "boom",
               message := "too young",
               metadata := ⟨"User", "Create", "", 0, ""⟩ }], none) :=
  c1_amended_exec_error_message ⟨true⟩ _ "Age > 18" "too young" []
    ⟨"User", "Create", "", -1, ""⟩ 7 7 "boom" rfl rfl rfl

/-- C4: for a rule that reaches execution, the result's `passed` field is
true iff execution produced no runtime error and the execution result is
the boolean `true`; any other outcome (a non-boolean value, a non-true
boolean, or an execution error) yields `passed = false`, and the error
field carries exactly the execution error when there is one. -/
theorem c4_passed_iff_true {α β : Type} (v : Validator)
    (eng : CelEngine α β) (r fm : String) (md : ValidationMetadata)
    (a : α) (p : β)
    (hc : eng.compile r = Except.ok a) (hp : eng.program a = Except.ok p) :
    ∃ res, Validator.Validate v (Except.ok eng) [RuleEntry.mk r true fm []] md =
        (some [res], none) ∧
      (res.passed = true ↔ eng.evalProgram p = Except.ok (CelValue.bool true)) ∧
      res.error = (match eng.evalProgram p with
                   | .error e => some e
                   | .ok _ => none) := by
  cases ho : eng.evalProgram p with
  | error ex =>
      refine ⟨{ rule := r, passed := false, error := some ex, message := fm,
                metadata := { structName := md.structName,
                              operation := md.operation,
                              chainPath := md.chainPath, ruleIndex := 0,
                              parentRule := md.parentRule } }, ?_, ?_, ?_⟩
      · exact c1_amended_exec_error_message v eng r fm [] md a p ex hc hp ho
      · simp
      · simp
  | ok cv =>
      cases cv with
      | bool b =>
          cases b with
          | true =>
              refine ⟨{ rule := r, passed := true, error := none,
                        message := "",
                        metadata := { structName := md.structName,
                                      operation := md.operation,
                                      chainPath := md.chainPath, ruleIndex := 0,
                                      parentRule := md.parentRule } }, ?_, ?_, ?_⟩
              · simp [Validator.Validate, evalRules, hc, hp, ho]
              · simp
              · simp
          | false =>
              refine ⟨{ rule := r, passed := false, error := none,
                        message := fm,
                        metadata := { structName := md.structName,
                                      operation := md.operation,
                                      chainPath := md.chainPath, ruleIndex := 0,
                                      parentRule := md.parentRule } }, ?_, ?_, ?_⟩
              · simp [Validator.Validate, evalRules, hc, hp, ho]
              · simp
              · simp
      | int n =>
          refine ⟨{ rule := r, passed := false, error := none,
                    message := fm,
                    metadata := { structName := md.structName,
                                  operation := md.operation,
                                  chainPath := md.chainPath, ruleIndex := 0,
                                  parentRule := md.parentRule } }, ?_, ?_, ?_⟩
          · simp [Validator.Validate, evalRules, hc, hp, ho]
          · simp
          · simp
      | str s =>
          refine ⟨{ rule := r, passed := false, error := none,
                    message := fm,
                    metadata := { structName := md.structName,
                                  operation := md.operation,
                                  chainPath := md.chainPath, ruleIndex := 0,
                                  parentRule := md.parentRule } }, ?_, ?_, ?_⟩
          · simp [Validator.Validate, evalRules, hc, hp, ho]
          · simp
          · simp
      | dyn =>
          refine ⟨{ rule := r, passed := false, error := none,
                    message := fm,
                    metadata := { structName := md.structName,
                                  operation := md.operation,
                                  chainPath := md.chainPath, ruleIndex := 0,
                                  parentRule := md.parentRule } }, ?_, ?_, ?_⟩
          · simp [Validator.Validate, evalRules, hc, hp, ho]
          · simp
          · simp

/-- Closed instance of `c4_passed_iff_true` at a concrete engine whose
execution yields the boolean true, discharging both hypotheses. -/
theorem c4_passed_iff_true_witness :
    ∃ res, Validator.Validate ⟨false⟩ (Except.ok
          { compile := fun _ => Except.ok 1,
            program := fun _ => Except.ok 2,
            evalProgram := fun _ => Except.ok (CelValue.bool true) :
            CelEngine Nat Nat })
        [RuleEntry.mk "IsActive == true" true "" []]
        ⟨"User", "Create", "", -1, ""⟩ = (some [res], none) ∧
      (res.passed = true ↔
        ({ compile := fun _ => Except.ok 1,
           program := fun _ => Except.ok 2,
           evalProgram := fun _ => Except.ok (CelValue.bool true) :
           CelEngine Nat Nat }).evalProgram 2 =
          Except.ok (CelValue.bool true)) ∧
      res.error = (match ({ compile := fun _ => Except.ok 1,
                            program := fun _ => Except.ok 2,
                            evalProgram := fun _ =>
                              Except.ok (CelValue.bool true) :
                            CelEngine Nat Nat }).evalProgram 2 with
                   | .error e => some e
                   | .ok _ => none) :=
  c4_passed_iff_true ⟨false⟩ _ "IsActive == true" ""
    ⟨"User", "Create", "", -1, ""⟩ 1 2 rfl rfl

/-- C2: with partial evaluation off, a rule whose expression fails to
compile (or whose program fails to build) halts evaluation immediately:
the state walk returns exactly the results accumulated so far plus the
result recorded for the failing rule, together with that error as the
overall error, independently of the failing entry's children and of every
later sibling; and a halting error arising inside a passing entry's
children propagates out unchanged, skipping all later siblings. -/
theorem c2_nonpartial_halt {α β : Type} (v : Validator) (eng : CelEngine α β)
    (r fm : String) (ths rest : List RuleEntry) (md : ValidationMetadata)
    (i : Nat) (st : EvalState)
    (hv : v.partEval = false) (hseen : r ∉ st.seen) :
    (∀ ce, eng.compile r = Except.error ce →
      evalRules v eng (RuleEntry.mk r true fm ths :: rest) md i st =
        ({ results := st.results ++
              [{ rule := r, passed := false, error := some ce, message := "",
                 metadata := { structName := md.structName,
                               operation := md.operation,
                               chainPath := md.chainPath ++ " > compileError",
                               ruleIndex := (i : Int),
                               parentRule := md.parentRule } }],
           seen := r :: st.seen }, some ce)) ∧
    (∀ a pe, eng.compile r = Except.ok a → eng.program a = Except.error pe →
      evalRules v eng (RuleEntry.mk r true fm ths :: rest) md i st =
        ({ results := st.results ++
              [{ rule := r, passed := false, error := some pe, message := "",
                 metadata := { structName := md.structName,
                               operation := md.operation,
                               chainPath := md.chainPath ++ " > programError",
                               ruleIndex := (i : Int),
                               parentRule := md.parentRule } }],
           seen := r :: st.seen }, some pe)) ∧
    (∀ a p st3 ce, eng.compile r = Except.ok a → eng.program a = Except.ok p →
      eng.evalProgram p = Except.ok (CelValue.bool true) →
      ths.isEmpty = false →
      evalRules v eng ths (childMetadata md r) 0
        { results := st.results ++
              [{ rule := r, passed := true, error := none, message := "",
                 metadata := { structName := md.structName,
                               operation := md.operation,
                               chainPath := md.chainPath,
                               ruleIndex := (i : Int),
                               parentRule := md.parentRule } }],
          seen := r :: st.seen } = (st3, some ce) →
      evalRules v eng (RuleEntry.mk r true fm ths :: rest) md i st =
        (st3, some ce)) := by
  refine ⟨?_, ?_, ?_⟩
  · intro ce hc
    simp [evalRules, hseen, hc, hv]
  · intro a pe hc hp
    simp [evalRules, hseen, hc, hp, hv]
  · intro a p st3 ce hc hp he hne hchild
    simp [evalRules, hseen, hc, hp, he, hne, hchild, hv]

/-- Closed instance of `c2_nonpartial_halt` realising the specification's
three-rule example: the first rule fails to compile, the walk stops with
exactly one recorded result and a non-nil overall error. -/
theorem c2_nonpartial_halt_witness :
    evalRules ⟨false⟩
      { compile := fun _ => Except.error "compile error",
        program := fun _ => Except.ok 0,
        evalProgram := fun _ => Except.ok CelValue.dyn : CelEngine Nat Nat }
      [RuleEntry.mk "invalid-expression" true "" [],
       RuleEntry.mk "Age > 18" true "" [],
       RuleEntry.mk "Email != ''" true "" []]
      ⟨"User", "Create", "", -1, ""⟩ 0 ⟨[], []⟩ =
      (⟨[{ rule := "invalid-expression", passed := false,
           error := some "compile error", message := "",
           metadata := ⟨"User", "Create", " > compileError", 0, ""⟩ }],
        ["invalid-expression"]⟩, some "compile error") :=
  (c2_nonpartial_halt ⟨false⟩ _ "invalid-expression" ""
    [] [RuleEntry.mk "Age > 18" true "" [], RuleEntry.mk "Email != ''" true "" []]
    ⟨"User", "Create", "", -1, ""⟩ 0 ⟨[], []⟩ rfl (by simp)).1
    "compile error" rfl

/-- C7: a passing entry's children are recursed into exactly when the
`Then` list is non-empty, under a child context whose chain path is the
parent's chain path extended by a `"then"` segment, whose parentRule is
the parent's expression text and whose base ruleIndex is the sentinel -1;
with one enabled and one disabled child the call yields the parent's
result followed by exactly one child result; when the parent does not
pass, the children are never evaluated in any mode. -/
theorem c7_children_recursion {α β : Type} (v : Validator)
    (eng : CelEngine α β) (P C1 C2 fmP fm1 fm2 : String)
    (t2 : List RuleEntry) (md : ValidationMetadata)
    (aP : α) (pP : β) (aC : α) (pC : β)
    (h1 : eng.compile P = Except.ok aP) (h2 : eng.program aP = Except.ok pP)
    (h4 : eng.compile C1 = Except.ok aC) (h5 : eng.program aC = Except.ok pC)
    (h6 : eng.evalProgram pC = Except.ok (CelValue.bool true))
    (hne : C1 ≠ P) :
    (eng.evalProgram pP = Except.ok (CelValue.bool true) →
      Validator.Validate v (Except.ok eng)
        [RuleEntry.mk P true fmP
          [RuleEntry.mk C1 true fm1 [], RuleEntry.mk C2 false fm2 t2]] md =
        (some [{ rule := P, passed := true, error := none, message := "",
                 metadata := { structName := md.structName,
                               operation := md.operation,
                               chainPath := md.chainPath, ruleIndex := 0,
                               parentRule := md.parentRule } },
               { rule := C1, passed := true, error := none, message := "",
                 metadata := { structName := md.structName,
                               operation := md.operation,
                               chainPath := extendChainPath md.chainPath "then",
                               ruleIndex := 0,
                               parentRule := P } }], none)) ∧
    (∀ ex, eng.evalProgram pP = Except.error ex →
      Validator.Validate v (Except.ok eng)
        [RuleEntry.mk P true fmP
          [RuleEntry.mk C1 true fm1 [], RuleEntry.mk C2 false fm2 t2]] md =
        (some [{ rule := P, passed := false, error := some ex, message := fmP,
                 metadata := { structName := md.structName,
                               operation := md.operation,
                               chainPath := md.chainPath, ruleIndex := 0,
                               parentRule := md.parentRule } }], none)) ∧
    (eng.evalProgram pP = Except.ok (CelValue.bool false) →
      Validator.Validate v (Except.ok eng)
        [RuleEntry.mk P true fmP
          [RuleEntry.mk C1 true fm1 [], RuleEntry.mk C2 false fm2 t2]] md =
        (some [{ rule := P, passed := false, error := none, message := fmP,
                 metadata := { structName := md.structName,
                               operation := md.operation,
                               chainPath := md.chainPath, ruleIndex := 0,
                               parentRule := md.parentRule } }], none)) ∧
    childMetadata md P =
      { structName := md.structName, operation := md.operation,
        chainPath := extendChainPath md.chainPath "then",
        ruleIndex := -1, parentRule := P } := by
  refine ⟨?_, ?_, ?_, rfl⟩
  · intro hp
    simp [Validator.Validate, evalRules, h1, h2, h4, h5, h6, hp, hne,
      childMetadata]
  · intro ex hp
    simp [Validator.Validate, evalRules, h1, h2, hp]
  · intro hp
    simp [Validator.Validate, evalRules, h1, h2, hp]

/-- Closed instance of `c7_children_recursion` at a concrete engine where
the parent passes, discharging each hypothesis. -/
theorem c7_children_recursion_witness :
    Validator.Validate ⟨false⟩ (Except.ok
        { compile := fun s => Except.ok s,
          program := fun a => Except.ok a,
          evalProgram := fun _ => Except.ok (CelValue.bool true) :
          CelEngine String String })
        [RuleEntry.mk "Count > 0" true "count must be positive"
          [RuleEntry.mk "Name != ''" true "" [],
           RuleEntry.mk "Name != 'test'" false "" []]]
        ⟨"Sample", "Default", "", -1, ""⟩ =
      (some [{ rule := "Count > 0", passed := true, error := none,
               message := "",
               metadata := ⟨"Sample", "Default", "", 0, ""⟩ },
             { rule := "Name != ''", passed := true, error := none,
               message := "",
               metadata := ⟨"Sample", "Default",
                 extendChainPath "" "then", 0, "Count > 0"⟩ }], none) :=
  (c7_children_recursion ⟨false⟩ _ "Count > 0" "Name != ''" "Name != 'test'"
    "count must be positive" "" "" [] ⟨"Sample", "Default", "", -1, ""⟩
    "Count > 0" "Count > 0" "Name != ''" "Name != ''"
    rfl rfl rfl rfl rfl (by decide)).1 rfl

lemma evalRules_partial_no_halt {α β : Type} (v : Validator)
    (eng : CelEngine α β) (hv : v.partEval = true) :
    ∀ entries md i st, (evalRules v eng entries md i st).2 = none := by
  intro entries md i st
  induction entries, md, i, st using evalRules.induct v eng
  all_goals try (rw [evalRules]; first | done | (simp_all +zetaDelta; done))
  case case10 md i st r en fmsg ths rest hguard st1 prgA hc prgB hpr out passed res st2 hImp ih =>
    rw [evalRules]
    cases ths with
    | nil => simp_all +zetaDelta
    | cons c tl => simp_all +zetaDelta

lemma evalRules_ok_no_halt {α β : Type} (v : Validator) (eng : CelEngine α β)
    (hcok : ∀ s, (eng.compile s).isOk = true)
    (hpok : ∀ a, (eng.program a).isOk = true) :
    ∀ entries md i st, (evalRules v eng entries md i st).2 = none := by
  intro entries md i st
  induction entries, md, i, st using evalRules.induct v eng
  all_goals try (rw [evalRules]; first | done | (simp_all +zetaDelta; done))
  case case3 md i st r en fmsg ths rest hguard pe hc hv2 =>
    have h := hcok r
    rw [hc] at h
    simp [Except.isOk, Except.toBool] at h
  case case5 md i st r en fmsg ths rest hguard prgA hc pe hp hv2 =>
    have h := hpok prgA
    rw [hp] at h
    simp [Except.isOk, Except.toBool] at h
  case case10 md i st r en fmsg ths rest hguard st1 prgA hc prgB hpr out passed res st2 hImp ih =>
    rw [evalRules]
    cases ths with
    | nil => simp_all +zetaDelta
    | cons c tl => simp_all +zetaDelta

lemma evalRules_length {α β : Type} (v : Validator) (eng : CelEngine α β) :
    ∀ entries md i st,
      ((evalRules v eng entries md i st).1.results).length + st.seen.length =
        ((evalRules v eng entries md i st).1.seen).length +
          st.results.length := by
  intro entries md i st
  induction entries, md, i, st using evalRules.induct v eng
  all_goals try (rw [evalRules]; first | done | (simp_all +zetaDelta; done) | (simp_all +zetaDelta; omega))
  case case10 md i st r en fmsg ths rest hguard st1 prgA hc prgB hpr out passed res st2 hImp ih =>
    rw [evalRules]
    cases ths with
    | nil =>
        simp_all +zetaDelta
        omega
    | cons c tl =>
        simp_all +zetaDelta
        omega

/-- C3: whenever `Validate` runs to completion — in partial-evaluation
mode, where a compile or build failure only records its result and the
walk continues with the remaining rules, or when no compile/build failure
occurs — the overall error is nil; one result is produced per rule
actually evaluated (the rules marked in the seen set); logical failures
and execution errors never become the overall error. -/
theorem c3_completion_no_overall_error {α β : Type} (v : Validator)
    (eng : CelEngine α β) (rules : List RuleEntry) (md : ValidationMetadata) :
    (v.partEval = true →
      (Validator.Validate v (Except.ok eng) rules md).2 = none) ∧
    ((∀ s, (eng.compile s).isOk = true) → (∀ a, (eng.program a).isOk = true) →
      (Validator.Validate v (Except.ok eng) rules md).2 = none) ∧
    (∀ rs, (Validator.Validate v (Except.ok eng) rules md).1 = some rs →
      rs.length =
        (evalRules v eng rules md 0 ⟨[], []⟩).1.seen.length) ∧
    (v.partEval = true →
      ∀ r fm ths rest i st ce, eng.compile r = Except.error ce →
        r ∉ st.seen →
        evalRules v eng (RuleEntry.mk r true fm ths :: rest) md i st =
          evalRules v eng rest md (i + 1)
            { results := st.results ++
                  [{ rule := r, passed := false, error := some ce,
                     message := "",
                     metadata := { structName := md.structName,
                                   operation := md.operation,
                                   chainPath := md.chainPath ++ " > compileError",
                                   ruleIndex := (i : Int),
                                   parentRule := md.parentRule } }],
              seen := r :: st.seen }) ∧
    (v.partEval = true →
      ∀ r fm ths rest i st a pe, eng.compile r = Except.ok a →
        eng.program a = Except.error pe → r ∉ st.seen →
        evalRules v eng (RuleEntry.mk r true fm ths :: rest) md i st =
          evalRules v eng rest md (i + 1)
            { results := st.results ++
                  [{ rule := r, passed := false, error := some pe,
                     message := "",
                     metadata := { structName := md.structName,
                                   operation := md.operation,
                                   chainPath := md.chainPath ++ " > programError",
                                   ruleIndex := (i : Int),
                                   parentRule := md.parentRule } }],
              seen := r :: st.seen }) := by
  refine ⟨?_, ?_, ?_, ?_, ?_⟩
  · intro hv
    simpa [Validator.Validate] using
      evalRules_partial_no_halt v eng hv rules md 0 ⟨[], []⟩
  · intro h1 h2
    simpa [Validator.Validate] using
      evalRules_ok_no_halt v eng h1 h2 rules md 0 ⟨[], []⟩
  · intro rs h
    have hlen := evalRules_length v eng rules md 0 ⟨[], []⟩
    simp only [Validator.Validate, Option.some.injEq] at h
    rw [← h]
    simpa using hlen
  · intro hv r fm ths rest i st ce hc hseen
    simp [evalRules, hseen, hc, hv]
  · intro hv r fm ths rest i st a pe hc hp hseen
    simp [evalRules, hseen, hc, hp, hv]

/-- Closed instance of `c3_completion_no_overall_error`: in partial mode a
compile failure does not become the overall error. -/
theorem c3_completion_no_overall_error_witness :
    (Validator.Validate ⟨true⟩ (Except.ok
        { compile := fun _ => Except.error "undeclared reference",
          program := fun a => Except.ok a,
          evalProgram := fun _ => Except.ok CelValue.dyn :
          CelEngine Nat Nat })
      [RuleEntry.mk "UnknownField == true" true "" []]
      ⟨"Sample", "Create", "", -1, ""⟩).2 = none :=
  (c3_completion_no_overall_error ⟨true⟩ _
    [RuleEntry.mk "UnknownField == true" true "" []]
    ⟨"Sample", "Create", "", -1, ""⟩).1 rfl

lemma mem_enabledRuleTexts_cons (x r : String) (en : Bool) (fm : String)
    (ths rest : List RuleEntry) :
    x ∈ enabledRuleTexts (RuleEntry.mk r en fm ths :: rest) ↔
      (en = true ∧ (x = r ∨ x ∈ enabledRuleTexts ths)) ∨
        x ∈ enabledRuleTexts rest := by
  cases en <;> simp [enabledRuleTexts] <;> tauto

lemma evalRules_provenance {α β : Type} (v : Validator) (eng : CelEngine α β) :
    ∀ entries md i st res,
      res ∈ (evalRules v eng entries md i st).1.results →
      res ∈ st.results ∨ res.rule ∈ enabledRuleTexts entries := by
  intro entries md i st
  induction entries, md, i, st using evalRules.induct v eng
  case case1 md i st =>
      intro res h
      rw [evalRules] at h
      exact Or.inl h
  case case2 md i st r en fmsg ths rest hguard ih =>
      intro res h
      rw [evalRules] at h
      simp only [hguard, if_true] at h
      rcases ih res h with h1 | h1
      · exact Or.inl h1
      · exact Or.inr ((mem_enabledRuleTexts_cons res.rule r en fmsg ths
          rest).2 (Or.inr h1))
  case case3 md i st r en fmsg ths rest hgn pe hc hv2 =>
      simp at hgn
      obtain ⟨hen, hsn⟩ := hgn
      subst hen
      intro res h
      rw [evalRules] at h
      simp +zetaDelta [hsn, hc, hv2] at h
      rcases h with h1 | h1
      · exact Or.inl h1
      · exact Or.inr ((mem_enabledRuleTexts_cons res.rule r true fmsg ths
          rest).2 (Or.inl ⟨rfl, Or.inl (by simp [h1])⟩))
  case case4 md i st r en fmsg ths rest hgn st1 pe hc st2 hnv ih =>
      simp at hgn
      obtain ⟨hen, hsn⟩ := hgn
      subst hen
      intro res h
      rw [evalRules] at h
      simp +zetaDelta [hsn, hc, hnv] at h
      rcases ih res h with h1 | h1
      · simp +zetaDelta at h1
        rcases h1 with h2 | h2
        · exact Or.inl h2
        · exact Or.inr ((mem_enabledRuleTexts_cons res.rule r true fmsg ths
            rest).2 (Or.inl ⟨rfl, Or.inl (by simp [h2])⟩))
      · exact Or.inr ((mem_enabledRuleTexts_cons res.rule r true fmsg ths
          rest).2 (Or.inr h1))
  case case5 md i st r en fmsg ths rest hgn prg hc pe hp hv2 =>
      simp at hgn
      obtain ⟨hen, hsn⟩ := hgn
      subst hen
      intro res h
      rw [evalRules] at h
      simp +zetaDelta [hsn, hc, hp, hv2] at h
      rcases h with h1 | h1
      · exact Or.inl h1
      · exact Or.inr ((mem_enabledRuleTexts_cons res.rule r true fmsg ths
          rest).2 (Or.inl ⟨rfl, Or.inl (by simp [h1])⟩))
  case case6 md i st r en fmsg ths rest hgn st1 prg hc pe hp st2 hnv ih =>
      simp at hgn
      obtain ⟨hen, hsn⟩ := hgn
      subst hen
      intro res h
      rw [evalRules] at h
      simp +zetaDelta [hsn, hc, hp, hnv] at h
      rcases ih res h with h1 | h1
      · simp +zetaDelta at h1
        rcases h1 with h2 | h2
        · exact Or.inl h2
        · exact Or.inr ((mem_enabledRuleTexts_cons res.rule r true fmsg ths
            rest).2 (Or.inl ⟨rfl, Or.inl (by simp [h2])⟩))
      · exact Or.inr ((mem_enabledRuleTexts_cons res.rule r true fmsg ths
          rest).2 (Or.inr h1))
  case case7 md i st r en fmsg ths rest hgn st1 prg hc prg1 hp out passed res0 st2 hcond st3 cerr hchild hv2 ihc =>
      simp at hgn
      obtain ⟨hen, hsn⟩ := hgn
      subst hen
      have hchild0 := hchild
      simp +zetaDelta at hcond
      obtain ⟨hpx, hne⟩ := hcond
      simp +zetaDelta [hpx, hne] at hchild
      intro res h
      rw [evalRules] at h
      simp +zetaDelta [hsn, hc, hp, hpx, hne, hchild, hv2] at h
      rcases ihc res (by rw [hchild0]; exact h) with h1 | h1
      · simp +zetaDelta at h1
        rcases h1 with h2 | h2
        · exact Or.inl h2
        · exact Or.inr ((mem_enabledRuleTexts_cons res.rule r true fmsg ths
            rest).2 (Or.inl ⟨rfl, Or.inl (by simp [h2])⟩))
      · exact Or.inr ((mem_enabledRuleTexts_cons res.rule r true fmsg ths
          rest).2 (Or.inl ⟨rfl, Or.inr h1⟩))
  case case8 md i st r en fmsg ths rest hgn st1 prg hc prg1 hp out passed res0 st2 hcond st3 cerr hchild hnv ihc ihr =>
      simp at hgn
      obtain ⟨hen, hsn⟩ := hgn
      subst hen
      have hchild0 := hchild
      simp +zetaDelta at hcond
      obtain ⟨hpx, hne⟩ := hcond
      simp +zetaDelta [hpx, hne] at hchild
      intro res h
      rw [evalRules] at h
      simp +zetaDelta [hsn, hc, hp, hpx, hne, hchild, hnv] at h
      rcases ihr res h with hA | hA
      · rcases ihc res (by rw [hchild0]; exact hA) with h1 | h1
        · simp +zetaDelta at h1
          rcases h1 with h2 | h2
          · exact Or.inl h2
          · exact Or.inr ((mem_enabledRuleTexts_cons res.rule r true fmsg ths
              rest).2 (Or.inl ⟨rfl, Or.inl (by simp [h2])⟩))
        · exact Or.inr ((mem_enabledRuleTexts_cons res.rule r true fmsg ths
            rest).2 (Or.inl ⟨rfl, Or.inr h1⟩))
      · exact Or.inr ((mem_enabledRuleTexts_cons res.rule r true fmsg ths
          rest).2 (Or.inr hA))
  case case9 md i st r en fmsg ths rest hgn st1 prg hc prg1 hp out passed res0 st2 hcond st3 hchild ihc ihr =>
      simp at hgn
      obtain ⟨hen, hsn⟩ := hgn
      subst hen
      have hchild0 := hchild
      simp +zetaDelta at hcond
      obtain ⟨hpx, hne⟩ := hcond
      simp +zetaDelta [hpx, hne] at hchild
      intro res h
      rw [evalRules] at h
      simp +zetaDelta [hsn, hc, hp, hpx, hne, hchild] at h
      rcases ihr res h with hA | hA
      · rcases ihc res (by rw [hchild0]; exact hA) with h1 | h1
        · simp +zetaDelta at h1
          rcases h1 with h2 | h2
          · exact Or.inl h2
          · exact Or.inr ((mem_enabledRuleTexts_cons res.rule r true fmsg ths
              rest).2 (Or.inl ⟨rfl, Or.inl (by simp [h2])⟩))
        · exact Or.inr ((mem_enabledRuleTexts_cons res.rule r true fmsg ths
            rest).2 (Or.inl ⟨rfl, Or.inr h1⟩))
      · exact Or.inr ((mem_enabledRuleTexts_cons res.rule r true fmsg ths
          rest).2 (Or.inr hA))
  case case10 md i st r en fmsg ths rest hgn st1 prg hc prg1 hp out passed res0 st2 hncond ihr =>
      simp at hgn
      obtain ⟨hen, hsn⟩ := hgn
      subst hen
      intro res h
      rw [evalRules] at h
      cases hths : ths with
      | nil =>
          subst hths
          simp +zetaDelta [hsn, hc, hp] at h
          rcases ihr res (by simp +zetaDelta; exact h) with h1 | h1
          · simp +zetaDelta at h1
            rcases h1 with h2 | h2
            · exact Or.inl h2
            · exact Or.inr ((mem_enabledRuleTexts_cons res.rule r true fmsg []
                rest).2 (Or.inl ⟨rfl, Or.inl (by simp [h2])⟩))
          · exact Or.inr ((mem_enabledRuleTexts_cons res.rule r true fmsg []
              rest).2 (Or.inr h1))
      | cons c tl =>
          subst hths
          simp +zetaDelta at hncond
          simp +zetaDelta [hsn, hc, hp, hncond] at h
          rcases ihr res (by simp +zetaDelta [hncond]; exact h) with h1 | h1
          · simp +zetaDelta at h1
            rcases h1 with h2 | h2
            · exact Or.inl h2
            · exact Or.inr ((mem_enabledRuleTexts_cons res.rule r true fmsg
                (c :: tl) rest).2 (Or.inl ⟨rfl, Or.inl (by simp [h2])⟩))
          · exact Or.inr ((mem_enabledRuleTexts_cons res.rule r true fmsg
              (c :: tl) rest).2 (Or.inr h1))

lemma StOk.push (st : EvalState) (res : ValidationResult)
    (h : StOk st) (hres : res.rule ∉ st.seen) :
    StOk { results := st.results ++ [res], seen := res.rule :: st.seen } := by
  obtain ⟨h1, h2⟩ := h
  constructor
  · intro q hq
    rcases List.mem_append.1 hq with hq | hq
    · exact List.mem_cons_of_mem _ (h1 q hq)
    · simp only [List.mem_singleton] at hq
      subst hq
      exact List.mem_cons_self _ _
  · rw [List.map_append]
    refine List.Nodup.append h2 (List.nodup_singleton _) ?_
    intro x hx1 hx2
    simp only [List.map_cons, List.map_nil, List.mem_singleton] at hx2
    subst hx2
    obtain ⟨q, hq, hqr⟩ := List.mem_map.1 hx1
    exact hres (hqr ▸ h1 q hq)

lemma evalRules_StOk {α β : Type} (v : Validator) (eng : CelEngine α β) :
    ∀ entries md i st,
      (∀ x, x ∈ st.seen → x ∈ (evalRules v eng entries md i st).1.seen) ∧
      (StOk st → StOk (evalRules v eng entries md i st).1) := by
  intro entries md i st
  induction entries, md, i, st using evalRules.induct v eng
  case case1 md i st =>
      rw [evalRules]
      exact ⟨fun x h => h, fun h => h⟩
  case case2 md i st r en fmsg ths rest hguard ih =>
      have hstep : evalRules v eng (RuleEntry.mk r en fmsg ths :: rest) md i st =
          evalRules v eng rest md (i + 1) st := by
        rw [evalRules]
        simp [hguard]
        intro hen hsn
        subst hen
        simp [hsn] at hguard
      rw [hstep]
      exact ih
  case case3 md i st r en fmsg ths rest hgn pe hc hv2 =>
      simp at hgn
      obtain ⟨hen, hsn⟩ := hgn
      subst hen
      have hstep : evalRules v eng (RuleEntry.mk r true fmsg ths :: rest) md i st =
          ({ results := st.results ++
                [{ rule := r, passed := false, error := some pe, message := "",
                   metadata := { structName := md.structName,
                                 operation := md.operation,
                                 chainPath := md.chainPath ++ " > compileError",
                                 ruleIndex := (i : Int),
                                 parentRule := md.parentRule } }],
             seen := r :: st.seen }, some pe) := by
        rw [evalRules]; simp +zetaDelta [hsn, hc, hv2]
      rw [hstep]
      refine ⟨fun x hx => List.mem_cons_of_mem _ hx, fun hok => ?_⟩
      exact StOk.push st _ hok hsn
  case case4 md i st r en fmsg ths rest hgn st1 pe hc st2 hnv ih =>
      simp at hgn
      obtain ⟨hen, hsn⟩ := hgn
      subst hen
      have hstep : evalRules v eng (RuleEntry.mk r true fmsg ths :: rest) md i st =
          evalRules v eng rest md (i + 1) st2 := by
        rw [evalRules]; simp +zetaDelta [hsn, hc, hnv]
      rw [hstep]
      refine ⟨fun x hx => ih.1 x (List.mem_cons_of_mem _ hx), fun hok => ?_⟩
      exact ih.2 (StOk.push st _ hok hsn)
  case case5 md i st r en fmsg ths rest hgn prg hc pe hp hv2 =>
      simp at hgn
      obtain ⟨hen, hsn⟩ := hgn
      subst hen
      have hstep : evalRules v eng (RuleEntry.mk r true fmsg ths :: rest) md i st =
          ({ results := st.results ++
                [{ rule := r, passed := false, error := some pe, message := "",
                   metadata := { structName := md.structName,
                                 operation := md.operation,
                                 chainPath := md.chainPath ++ " > programError",
                                 ruleIndex := (i : Int),
                                 parentRule := md.parentRule } }],
             seen := r :: st.seen }, some pe) := by
        rw [evalRules]; simp +zetaDelta [hsn, hc, hp, hv2]
      rw [hstep]
      refine ⟨fun x hx => List.mem_cons_of_mem _ hx, fun hok => ?_⟩
      exact StOk.push st _ hok hsn
  case case6 md i st r en fmsg ths rest hgn st1 prg hc pe hp st2 hnv ih =>
      simp at hgn
      obtain ⟨hen, hsn⟩ := hgn
      subst hen
      have hstep : evalRules v eng (RuleEntry.mk r true fmsg ths :: rest) md i st =
          evalRules v eng rest md (i + 1) st2 := by
        rw [evalRules]; simp +zetaDelta [hsn, hc, hp, hnv]
      rw [hstep]
      refine ⟨fun x hx => ih.1 x (List.mem_cons_of_mem _ hx), fun hok => ?_⟩
      exact ih.2 (StOk.push st _ hok hsn)
  case case7 md i st r en fmsg ths rest hgn st1 prg hc prg1 hp out passed res0 st2 hcond st3 cerr hchild hv2 ihc =>
      simp at hgn
      obtain ⟨hen, hsn⟩ := hgn
      subst hen
      have hchild0 := hchild
      simp +zetaDelta at hcond
      obtain ⟨hpx, hne⟩ := hcond
      simp +zetaDelta [hpx, hne] at hchild
      have hstep : evalRules v eng (RuleEntry.mk r true fmsg ths :: rest) md i st =
          (st3, some cerr) := by
        rw [evalRules]; simp +zetaDelta [hsn, hc, hp, hpx, hne, hchild, hv2]
      rw [hstep]
      constructor
      · intro x hx
        have hx2 := ihc.1 x (List.mem_cons_of_mem _ hx)
        rw [hchild0] at hx2
        exact hx2
      · intro hok
        have h2 := ihc.2 (StOk.push st res0 hok hsn)
        rw [hchild0] at h2
        exact h2
  case case8 md i st r en fmsg ths rest hgn st1 prg hc prg1 hp out passed res0 st2 hcond st3 cerr hchild hnv ihc ihr =>
      simp at hgn
      obtain ⟨hen, hsn⟩ := hgn
      subst hen
      have hchild0 := hchild
      simp +zetaDelta at hcond
      obtain ⟨hpx, hne⟩ := hcond
      simp +zetaDelta [hpx, hne] at hchild
      have hstep : evalRules v eng (RuleEntry.mk r true fmsg ths :: rest) md i st =
          evalRules v eng rest md (i + 1) st3 := by
        rw [evalRules]; simp +zetaDelta [hsn, hc, hp, hpx, hne, hchild, hnv]
      rw [hstep]
      constructor
      · intro x hx
        have hx2 := ihc.1 x (List.mem_cons_of_mem _ hx)
        rw [hchild0] at hx2
        exact ihr.1 x hx2
      · intro hok
        have h2 := ihc.2 (StOk.push st res0 hok hsn)
        rw [hchild0] at h2
        exact ihr.2 h2
  case case9 md i st r en fmsg ths rest hgn st1 prg hc prg1 hp out passed res0 st2 hcond st3 hchild ihc ihr =>
      simp at hgn
      obtain ⟨hen, hsn⟩ := hgn
      subst hen
      have hchild0 := hchild
      simp +zetaDelta at hcond
      obtain ⟨hpx, hne⟩ := hcond
      simp +zetaDelta [hpx, hne] at hchild
      have hstep : evalRules v eng (RuleEntry.mk r true fmsg ths :: rest) md i st =
          evalRules v eng rest md (i + 1) st3 := by
        rw [evalRules]; simp +zetaDelta [hsn, hc, hp, hpx, hne, hchild]
      rw [hstep]
      constructor
      · intro x hx
        have hx2 := ihc.1 x (List.mem_cons_of_mem _ hx)
        rw [hchild0] at hx2
        exact ihr.1 x hx2
      · intro hok
        have h2 := ihc.2 (StOk.push st res0 hok hsn)
        rw [hchild0] at h2
        exact ihr.2 h2
  case case10 md i st r en fmsg ths rest hgn st1 prg hc prg1 hp out passed res0 st2 hncond ihr =>
      simp at hgn
      obtain ⟨hen, hsn⟩ := hgn
      subst hen
      cases hths : ths with
      | nil =>
          subst hths
          have hstep : evalRules v eng (RuleEntry.mk r true fmsg [] :: rest) md i st =
              evalRules v eng rest md (i + 1) st2 := by
            rw [evalRules]; simp +zetaDelta [hsn, hc, hp]
          rw [hstep]
          refine ⟨fun x hx => ihr.1 x (List.mem_cons_of_mem _ hx), fun hok => ?_⟩
          exact ihr.2 (StOk.push st res0 hok hsn)
      | cons c tl =>
          subst hths
          simp +zetaDelta at hncond
          have hstep : evalRules v eng
              (RuleEntry.mk r true fmsg (c :: tl) :: rest) md i st =
              evalRules v eng rest md (i + 1) st2 := by
            rw [evalRules]; simp +zetaDelta [hsn, hc, hp, hncond]
          rw [hstep]
          refine ⟨fun x hx => ihr.1 x (List.mem_cons_of_mem _ hx), fun hok => ?_⟩
          exact ihr.2 (StOk.push st res0 hok hsn)

/-- C6: within a single `Validate` call each expression text produces at
most one result — the seen-expression set is shared across every level of
the recursion, so the recorded texts are pairwise distinct — and every
result's text belongs to an enabled entry reachable by the walk: disabled
entries (and entries under them) produce no result. -/
theorem c6_results_unique {α β : Type} (v : Validator) (eng : CelEngine α β)
    (rules : List RuleEntry) (md : ValidationMetadata)
    (rs : List ValidationResult) (oe : Option String)
    (h : Validator.Validate v (Except.ok eng) rules md = (some rs, oe)) :
    (rs.map (fun res => res.rule)).Nodup ∧
      ∀ res ∈ rs, res.rule ∈ enabledRuleTexts rules := by
  have hst := (evalRules_StOk v eng rules md 0 ⟨[], []⟩).2 ⟨by simp, by simp⟩
  have hprov := evalRules_provenance v eng rules md 0 ⟨[], []⟩
  simp only [Validator.Validate, Prod.mk.injEq, Option.some.injEq] at h
  obtain ⟨h1, h2⟩ := h
  constructor
  · rw [← h1]
    exact hst.2
  · intro res hres
    rw [← h1] at hres
    rcases hprov res hres with h3 | h3
    · simp at h3
    · exact h3

/-- Closed instance of `c6_results_unique` on a concrete run whose two
rules share one expression text: the duplicate is skipped, so the single
recorded text is trivially distinct and reachable. -/
theorem c6_results_unique_witness :
    (([{ rule := "Age > 18", passed := true, error := none, message := "",
         metadata := ⟨"User", "Create", "", 0, ""⟩ }]
      : List ValidationResult).map (fun res => res.rule)).Nodup ∧
      ∀ res ∈ ([{ rule := "Age > 18", passed := true, error := none,
                  message := "",
                  metadata := ⟨"User", "Create", "", 0, ""⟩ }]
               : List ValidationResult),
        res.rule ∈ enabledRuleTexts
          [RuleEntry.mk "Age > 18" true "" [],
           RuleEntry.mk "Age > 18" true "ignored duplicate" []] :=
  c6_results_unique ⟨false⟩
    ({ compile := fun _ => Except.ok 1, program := fun _ => Except.ok 2,
       evalProgram := fun _ => Except.ok (CelValue.bool true) :
       CelEngine Nat Nat })
    [RuleEntry.mk "Age > 18" true "" [],
     RuleEntry.mk "Age > 18" true "ignored duplicate" []]
    ⟨"User", "Create", "", -1, ""⟩ _ none
    (by simp [Validator.Validate, evalRules])
